import Mathlib

/-!
Verification of the opportunity discovery and lifecycle engine of a
cross-venue arbitrage bot, shallowly embedded from the Rust source
(src/arbitrage.rs, src/models.rs, src/exchanges/mod.rs, src/config.rs).

Modelling conventions:
* rust_decimal fixed-point decimals are modelled as exact rationals.
* Rust String is modelled as a list of characters (Str); str::to_uppercase
  is modelled characterwise by Char.toUpper (ASCII basic-latin uppercasing).
* chrono timestamps are modelled as integers (seconds); the five-minute
  expiry threshold of cleanup_expired_opportunities is the constant 300.
* HashMap String V is modelled as an association list with distinct keys;
  its unspecified iteration order is the list order.
* A venue adapter (dyn Exchange), for a fixed pair and depth, is a record
  of the results its observable methods would return; fallible methods
  hold Except values.  anyhow errors are collapsed into BotError.
* The persistence port (crate::database, outside src/) is write-only for
  the code under scrutiny; it is modelled as the two call logs saved
  (save_opportunity) and status_updates (update_opportunity_status) in
  BotState.
* The async execution model is irrelevant to the verified functions
  (each is straight-line await code); they are embedded as pure functions.
* Fields of the source structs that the embedded functions never touch
  (ids, api keys, urls, volumes, ...) are omitted.
-/

namespace ArbBot

/-- Rust String, modelled as a list of characters. -/
abbrev Str : Type := List Char

/-- Uppercasing of a string, modelling str::to_uppercase (ASCII letters). -/
def upStr (s : Str) : Str := s.map Char.toUpper

/-- Rust str::split on a single separator character: splits at every
occurrence of the separator, keeping empty fragments, as split('/') does
in parse_trading_pair. -/
def splitChar (sep : Char) : List Char → List (List Char)
  | [] => [[]]
  | c :: rest =>
    if c = sep then [] :: splitChar sep rest
    else
      match splitChar sep rest with
      | [] => [[c]]
      | p :: ps => (c :: p) :: ps

/-- TradingPair from src/models.rs (base, quote, derived symbol). -/
structure TradingPair where
  base : Str
  quote : Str
  symbol : Str
deriving DecidableEq

/-- TradingPair::new from src/models.rs: uppercases both parts and derives
the canonical symbol BASE/QUOTE. -/
def TradingPair.new (base quote : Str) : TradingPair :=
  { base := upStr base
    quote := upStr quote
    symbol := upStr base ++ ('/' :: upStr quote) }

/-- Price (a venue quote) from src/models.rs; volume_24h is omitted. -/
structure Price where
  exchange : Str
  pair : TradingPair
  bid : ℚ
  ask : ℚ
  timestamp : ℤ
deriving DecidableEq

/-- OrderBookLevel from src/models.rs. -/
structure OrderBookLevel where
  price : ℚ
  quantity : ℚ
deriving DecidableEq

/-- OrderBook from src/models.rs (venue and pair fields omitted). -/
structure OrderBook where
  bids : List OrderBookLevel
  asks : List OrderBookLevel
deriving DecidableEq

/-- TradingFees from src/exchanges/mod.rs. -/
structure TradingFees where
  maker_fee : ℚ
  taker_fee : ℚ
deriving DecidableEq

/-- OpportunityStatus from src/models.rs. -/
inductive OpportunityStatus where
  | Active
  | Executed
  | Expired
  | Failed
deriving DecidableEq

/-- ArbitrageOpportunity from src/models.rs; the random uuid id is
omitted (no verified function reads it). -/
structure ArbitrageOpportunity where
  pair : TradingPair
  buy_exchange : Str
  sell_exchange : Str
  buy_price : ℚ
  sell_price : ℚ
  profit_percentage : ℚ
  profit_amount : ℚ
  max_trade_size : ℚ
  timestamp : ℤ
  status : OpportunityStatus
deriving DecidableEq

/-- Collapsed anyhow::Error values surfaced by the embedded functions. -/
inductive BotError where
  | exchangeNotFound (name : Str)
  | adapterFailure (code : ℕ)
deriving DecidableEq

deriving instance DecidableEq for Except

/-- A venue adapter (dyn Exchange from src/exchanges/mod.rs) restricted to
the methods the calculator reads, for one fixed pair and depth: its name
and the results get_trading_fees and get_order_book would produce. -/
structure Exchange where
  name : Str
  get_trading_fees : Except BotError TradingFees
  get_order_book : Except BotError OrderBook
deriving DecidableEq

/-- ExchangeConfig from src/config.rs (only the field the calculator
reads). -/
structure ExchangeConfig where
  max_trade_amount : ℚ
deriving DecidableEq

/-- TradingConfig from src/config.rs (fields read by the verified code). -/
structure TradingConfig where
  min_profit_threshold : ℚ
  max_slippage : ℚ
  max_concurrent_trades : ℕ
deriving DecidableEq

/-- Config from src/config.rs (fields read by the verified code). -/
structure Config where
  exchanges : List (Str × ExchangeConfig)
  trading : TradingConfig
deriving DecidableEq

/-- HashMap::get, on the association-list model. -/
def lookupKey {β : Type} : List (Str × β) → Str → Option β
  | [], _ => none
  | (k, v) :: rest, key => if k = key then some v else lookupKey rest key

/-- HashMap::insert, on the association-list model: replaces the entry in
place when the key is present, appends otherwise. -/
def insertKey {β : Type} : List (Str × β) → Str → β → List (Str × β)
  | [], key, v => [(key, v)]
  | (k, w) :: rest, key, v =>
    if k = key then (key, v) :: rest else (k, w) :: insertKey rest key v

/-- HashMap::remove, on the association-list model: the removed value (if
any) together with the remaining entries. -/
def removeKey {β : Type} : List (Str × β) → Str → Option β × List (Str × β)
  | [], _ => (none, [])
  | (k, v) :: rest, key =>
    if k = key then (some v, rest)
    else
      let r := removeKey rest key
      (r.1, (k, v) :: r.2)

/-- The ExchangeManager of src/exchanges/mod.rs: adapters keyed by name;
the unspecified HashMap iteration order is the list order. -/
abbrev ExchangeManager : Type := List (Str × Exchange)

/-- In-memory bot state touched by the embedded ArbitrageBot methods:
the active_opportunities book plus the traces of the two persistence
calls (Database::save_opportunity and Database::update_opportunity_status). -/
structure BotState where
  active_opportunities : List (Str × ArbitrageOpportunity)
  saved : List ArbitrageOpportunity
  status_updates : List ArbitrageOpportunity
deriving DecidableEq

/-- The bot starts with an empty book and empty persistence logs. -/
def initialState : BotState :=
  { active_opportunities := [], saved := [], status_updates := [] }

/-- The buy-liquidity loop of calculate_max_trade_size
(src/arbitrage.rs:242-249): walk the asks in order, summing quantities
while the price stays within the slippage band, and break at the first
level outside it. -/
def walkBuyLiquidity (maxSlip buyPrice : ℚ) : List OrderBookLevel → ℚ
  | [] => 0
  | a :: rest =>
    if a.price ≤ buyPrice * (1 + maxSlip) then
      a.quantity + walkBuyLiquidity maxSlip buyPrice rest
    else 0

/-- The sell-liquidity loop of calculate_max_trade_size
(src/arbitrage.rs:251-258): walk the bids in order, summing quantities
while the price stays within the slippage band, and break at the first
level outside it. -/
def walkSellLiquidity (maxSlip sellPrice : ℚ) : List OrderBookLevel → ℚ
  | [] => 0
  | b :: rest =>
    if sellPrice * (1 - maxSlip) ≤ b.price then
      b.quantity + walkSellLiquidity maxSlip sellPrice rest
    else 0

/-- calculate_max_trade_size from src/arbitrage.rs:231-267. -/
def calculate_max_trade_size (config : Config) (buy_exchange sell_exchange : Exchange)
    (buy_price sell_price : ℚ) : Except BotError ℚ :=
  match buy_exchange.get_order_book with
  | .error e => .error e
  | .ok buy_order_book =>
    match sell_exchange.get_order_book with
    | .error e => .error e
    | .ok sell_order_book =>
      let buy_liquidity :=
        walkBuyLiquidity config.trading.max_slippage buy_price buy_order_book.asks
      let sell_liquidity :=
        walkSellLiquidity config.trading.max_slippage sell_price sell_order_book.bids
      let max_size := min buy_liquidity sell_liquidity
      let config_max :=
        ((lookupKey config.exchanges buy_exchange.name).map
          ExchangeConfig.max_trade_amount).getD 1000
      .ok (min max_size config_max)

/-- calculate_arbitrage_opportunity from src/arbitrage.rs:168-229.  The
manager argument embeds self.exchange_manager, and now the Utc::now()
timestamp given to a materialised opportunity. -/
def calculate_arbitrage_opportunity (config : Config) (manager : ExchangeManager)
    (pair : TradingPair) (buy_exchange sell_exchange : Str)
    (buy_price sell_price : ℚ) (now : ℤ) :
    Except BotError (Option ArbitrageOpportunity) :=
  let gross_profit_pct := (sell_price - buy_price) / buy_price * 100
  if gross_profit_pct ≤ config.trading.min_profit_threshold then .ok none
  else
    match lookupKey manager buy_exchange with
    | none => .error (.exchangeNotFound buy_exchange)
    | some buy_exchange_obj =>
      match lookupKey manager sell_exchange with
      | none => .error (.exchangeNotFound sell_exchange)
      | some sell_exchange_obj =>
        match buy_exchange_obj.get_trading_fees with
        | .error e => .error e
        | .ok buy_fees =>
          match sell_exchange_obj.get_trading_fees with
          | .error e => .error e
          | .ok sell_fees =>
            let total_fee_pct := buy_fees.taker_fee + sell_fees.taker_fee
            let net_profit_pct := gross_profit_pct - total_fee_pct * 100
            if net_profit_pct ≤ config.trading.min_profit_threshold then .ok none
            else
              match calculate_max_trade_size config buy_exchange_obj
                  sell_exchange_obj buy_price sell_price with
              | .error e => .error e
              | .ok max_trade_size =>
                if max_trade_size ≤ 0 then .ok none
                else
                  let profit_amount := max_trade_size * net_profit_pct / 100
                  .ok (some
                    { pair := pair
                      buy_exchange := buy_exchange
                      sell_exchange := sell_exchange
                      buy_price := buy_price
                      sell_price := sell_price
                      profit_percentage := net_profit_pct
                      profit_amount := profit_amount
                      max_trade_size := max_trade_size
                      timestamp := now
                      status := .Active })

/-- The book key of an opportunity (src/arbitrage.rs:270-273):
"{pair.symbol}-{buy_exchange}-{sell_exchange}". -/
def oppKey (opportunity : ArbitrageOpportunity) : Str :=
  opportunity.pair.symbol ++ ('-' :: opportunity.buy_exchange)
    ++ ('-' :: opportunity.sell_exchange)

/-- add_opportunity from src/arbitrage.rs:269-288: insert when the key is
new, replace when strictly more profitable; both paths persist via
save_opportunity, anything else leaves the state untouched. -/
def add_opportunity (s : BotState) (opportunity : ArbitrageOpportunity) : BotState :=
  let key := oppKey opportunity
  match lookupKey s.active_opportunities key with
  | some existing =>
    if existing.profit_percentage < opportunity.profit_percentage then
      { s with
          active_opportunities := insertKey s.active_opportunities key opportunity
          saved := s.saved ++ [opportunity] }
    else s
  | none =>
    { s with
        active_opportunities := insertKey s.active_opportunities key opportunity
        saved := s.saved ++ [opportunity] }

/-- The five-minute expiry threshold (chrono::Duration::minutes(5)),
in seconds. -/
def expiry_threshold : ℤ := 300

/-- One iteration of the removal loop of cleanup_expired_opportunities:
remove the entry under the key (if still present), mark it Expired and
persist that status once. -/
def expireKey (s : BotState) (key : Str) : BotState :=
  match removeKey s.active_opportunities key with
  | (some opportunity, rest) =>
    { s with
        active_opportunities := rest
        status_updates := s.status_updates ++ [{ opportunity with status := .Expired }] }
  | (none, _) => s

/-- cleanup_expired_opportunities from src/arbitrage.rs:334-352: collect
the keys of entries strictly older than the threshold, then remove each,
marking it Expired and persisting the transition. -/
def cleanup_expired_opportunities (now : ℤ) (s : BotState) : BotState :=
  let expired_keys :=
    (s.active_opportunities.filter
      (fun kv => decide (expiry_threshold < now - kv.2.timestamp))).map Prod.fst
  expired_keys.foldl expireKey s

/-- The descending-profit comparator order of execute_opportunities
(src/arbitrage.rs:294): sort_by(|a, b| b.profit_percentage.cmp(&a.profit_percentage)). -/
def profitDesc (a b : ArbitrageOpportunity) : Prop :=
  b.profit_percentage ≤ a.profit_percentage

instance : DecidableRel profitDesc := fun a b =>
  inferInstanceAs (Decidable (b.profit_percentage ≤ a.profit_percentage))

/-- The selection phase of execute_opportunities (src/arbitrage.rs:290-299):
snapshot the book values, stable-sort them by profit_percentage descending
(Rust sort_by is a stable sort; insertionSort is stable for this total
preorder), and truncate to max_concurrent_trades. -/
def execute_opportunities_selection (config : Config) (s : BotState) :
    List ArbitrageOpportunity :=
  ((s.active_opportunities.map Prod.snd).insertionSort profitDesc).take
    config.trading.max_concurrent_trades

/-- The adapter execution surface (place_buy_order, place_sell_order,
get_order_status, cancel_order of the Exchange trait). -/
inductive AdapterCall where
  | placeBuy
  | placeSell
  | orderStatus
  | cancelOrder
deriving DecidableEq

/-- Observable outcome of execute_opportunity: the bot state afterwards,
the adapter execution methods invoked, and the returned Result. -/
structure ExecResult where
  state : BotState
  adapter_calls : List AdapterCall
  outcome : Except BotError Unit
deriving DecidableEq

/-- execute_opportunity from src/arbitrage.rs:310-332.  The dry-run branch
logs and returns Ok without touching anything; the live branch of the
source is the unimplemented TODO stub, which also only logs and returns
Ok, invoking no adapter method. -/
def execute_opportunity (dry_run : Bool) (s : BotState)
    (opportunity : ArbitrageOpportunity) : ExecResult :=
  if dry_run then { state := s, adapter_calls := [], outcome := .ok () }
  else { state := s, adapter_calls := [], outcome := .ok () }

/-- parse_trading_pair from src/arbitrage.rs:403-410: split on every '/',
succeed exactly on a two-fragment result. -/
def parse_trading_pair (pair_str : Str) : Option TradingPair :=
  match splitChar '/' pair_str with
  | [b, q] => some (TradingPair.new b q)
  | _ => none

/-- find_best_buy_price from src/exchanges/mod.rs:82-85:
Iterator::min_by on ask; on ties Rust min_by keeps the first element. -/
def find_best_buy_price (prices : List Price) : Option Price :=
  prices.foldl
    (fun acc p =>
      match acc with
      | none => some p
      | some q => if p.ask < q.ask then some p else some q)
    none

/-- find_best_sell_price from src/exchanges/mod.rs:87-90:
Iterator::max_by on bid; on ties Rust max_by keeps the last element. -/
def find_best_sell_price (prices : List Price) : Option Price :=
  prices.foldl
    (fun acc p =>
      match acc with
      | none => some p
      | some q => if p.bid < q.bid then some q else some p)
    none

/-- Bot states reachable from startup through the operations that touch
the opportunity book: absorbing a calculator result, the expiry pass, and
the executor gate. -/
inductive Reachable : BotState → Prop
  | init : Reachable initialState
  | scan (config : Config) (manager : ExchangeManager) (pair : TradingPair)
      (buy_exchange sell_exchange : Str) (buy_price sell_price : ℚ) (now : ℤ)
      (opportunity : ArbitrageOpportunity) (s : BotState) :
      Reachable s →
      calculate_arbitrage_opportunity config manager pair buy_exchange sell_exchange
        buy_price sell_price now = .ok (some opportunity) →
      Reachable (add_opportunity s opportunity)
  | cleanup (now : ℤ) (s : BotState) :
      Reachable s → Reachable (cleanup_expired_opportunities now s)
  | execute (dry_run : Bool) (opportunity : ArbitrageOpportunity) (s : BotState) :
      Reachable s → Reachable (execute_opportunity dry_run s opportunity).state

/-- Every entry of the opportunity book has status Active. -/
def AllActive (s : BotState) : Prop :=
  ∀ kv ∈ s.active_opportunities, kv.2.status = OpportunityStatus.Active

/-! ### Association-list helper lemmas -/

theorem lookupKey_insertKey_self {β : Type} (l : List (Str × β)) (key : Str) (v : β) :
    lookupKey (insertKey l key v) key = some v := by
  induction l with
  | nil => simp [insertKey, lookupKey]
  | cons kv rest ih =>
    obtain ⟨k, w⟩ := kv
    by_cases h : k = key
    · simp [insertKey, h, lookupKey]
    · simp [insertKey, h, lookupKey, ih]

theorem lookupKey_insertKey_ne {β : Type} (l : List (Str × β)) (key other : Str) (v : β)
    (h : other ≠ key) : lookupKey (insertKey l key v) other = lookupKey l other := by
  induction l with
  | nil => simp [insertKey, lookupKey, Ne.symm h]
  | cons kv rest ih =>
    obtain ⟨k, w⟩ := kv
    by_cases hk : k = key
    · subst hk
      simp [insertKey, lookupKey, Ne.symm h]
    · by_cases hko : k = other
      · subst hko
        simp [insertKey, hk, lookupKey]
      · simp [insertKey, hk, lookupKey, hko, ih]

theorem mem_insertKey {β : Type} (l : List (Str × β)) (key : Str) (v : β) (x : Str × β)
    (hx : x ∈ insertKey l key v) : x = (key, v) ∨ x ∈ l := by
  induction l with
  | nil => simpa [insertKey] using hx
  | cons kv rest ih =>
    obtain ⟨k, w⟩ := kv
    by_cases h : k = key
    · simp only [insertKey, if_pos h, List.mem_cons] at hx
      rcases hx with h1 | h1
      · exact Or.inl h1
      · exact Or.inr (List.mem_cons_of_mem _ h1)
    · simp only [insertKey, if_neg h, List.mem_cons] at hx
      rcases hx with h1 | h1
      · exact Or.inr (List.mem_cons.mpr (Or.inl h1))
      · rcases ih h1 with h2 | h2
        · exact Or.inl h2
        · exact Or.inr (List.mem_cons_of_mem _ h2)

theorem removeKey_snd_subset {β : Type} (l : List (Str × β)) (key : Str) (x : Str × β)
    (hx : x ∈ (removeKey l key).2) : x ∈ l := by
  induction l with
  | nil => simpa [removeKey] using hx
  | cons kv rest ih =>
    obtain ⟨k, w⟩ := kv
    by_cases h : k = key
    · simp only [removeKey, if_pos h] at hx
      exact List.mem_cons_of_mem _ hx
    · simp only [removeKey, if_neg h, List.mem_cons] at hx
      rcases hx with h1 | h1
      · exact List.mem_cons.mpr (Or.inl h1)
      · exact List.mem_cons_of_mem _ (ih h1)

/-! ### Liquidity-walk lemmas: the break-loop equals a takeWhile sum -/

theorem walkBuyLiquidity_eq_takeWhile (maxSlip buyPrice : ℚ) (l : List OrderBookLevel) :
    walkBuyLiquidity maxSlip buyPrice l =
      ((l.takeWhile fun a => decide (a.price ≤ buyPrice * (1 + maxSlip))).map
        OrderBookLevel.quantity).sum := by
  induction l with
  | nil => simp [walkBuyLiquidity]
  | cons a rest ih =>
    by_cases h : a.price ≤ buyPrice * (1 + maxSlip)
    · simp [walkBuyLiquidity, h, List.takeWhile_cons, ih]
    · simp [walkBuyLiquidity, h, List.takeWhile_cons]

theorem walkSellLiquidity_eq_takeWhile (maxSlip sellPrice : ℚ) (l : List OrderBookLevel) :
    walkSellLiquidity maxSlip sellPrice l =
      ((l.takeWhile fun b => decide (sellPrice * (1 - maxSlip) ≤ b.price)).map
        OrderBookLevel.quantity).sum := by
  induction l with
  | nil => simp [walkSellLiquidity]
  | cons b rest ih =>
    by_cases h : sellPrice * (1 - maxSlip) ≤ b.price
    · simp [walkSellLiquidity, h, List.takeWhile_cons, ih]
    · simp [walkSellLiquidity, h, List.takeWhile_cons]

/-! ### Concrete fixtures used by witnesses (spec scenarios S1/S2 shaped) -/

/-- A sample configuration: threshold 0.5, slippage 0.01, venue a capped
at 1000. -/
def sampleConfig : Config :=
  { exchanges := [(['a'], { max_trade_amount := 1000 })]
    trading := { min_profit_threshold := 1/2, max_slippage := 1/100,
                 max_concurrent_trades := 2 } }

/-- Sample buy venue a with the S2 ask book. -/
def venueA : Exchange :=
  { name := ['a']
    get_trading_fees := .ok { maker_fee := 0, taker_fee := 1/1000 }
    get_order_book := .ok
      { bids := []
        asks := [{ price := 100, quantity := 5 }, { price := 201/2, quantity := 50 },
                 { price := 203/2, quantity := 100 }] } }

/-- Sample sell venue b with the S2 bid book. -/
def venueB : Exchange :=
  { name := ['b']
    get_trading_fees := .ok { maker_fee := 0, taker_fee := 1/1000 }
    get_order_book := .ok
      { asks := []
        bids := [{ price := 101, quantity := 30 }, { price := 1009/10, quantity := 20 },
                 { price := 99, quantity := 200 }] } }

/-- Sample registry holding the two venues. -/
def sampleManager : ExchangeManager := [(['a'], venueA), (['b'], venueB)]

/-- Sample pair BTC/USD. -/
def samplePair : TradingPair :=
  { base := ['B','T','C'], quote := ['U','S','D']
    symbol := ['B','T','C','/','U','S','D'] }

/-- C2: for every pair of successfully fetched order books, the trade size
is min(buy_liquidity, sell_liquidity, max_trade_amount of the configured
buy venue), where buy_liquidity sums the quantities of the asks taken in
order while the price stays within buy_price * (1 + max_slippage) and
stops at the first out-of-band level (takeWhile semantics: later in-band
levels are never counted), and sell_liquidity does the same over the bids
against the band sell_price * (1 - max_slippage). -/
theorem calculate_max_trade_size_spec (config : Config) (buy_exchange sell_exchange : Exchange)
    (buy_price sell_price : ℚ) (bb sb : OrderBook) (c : ExchangeConfig)
    (h1 : buy_exchange.get_order_book = .ok bb)
    (h2 : sell_exchange.get_order_book = .ok sb)
    (h3 : lookupKey config.exchanges buy_exchange.name = some c) :
    calculate_max_trade_size config buy_exchange sell_exchange buy_price sell_price =
      .ok (min
        (min
          (((bb.asks.takeWhile fun a =>
              decide (a.price ≤ buy_price * (1 + config.trading.max_slippage))).map
            OrderBookLevel.quantity).sum)
          (((sb.bids.takeWhile fun b =>
              decide (sell_price * (1 - config.trading.max_slippage) ≤ b.price)).map
            OrderBookLevel.quantity).sum))
        c.max_trade_amount) := by
  simp [calculate_max_trade_size, h1, h2, h3,
    walkBuyLiquidity_eq_takeWhile, walkSellLiquidity_eq_takeWhile]

/-- Witness for C2 at the concrete books of spec scenario S2:
size = min(min(55, 50), 1000) = 50. -/
theorem calculate_max_trade_size_spec_witness :
    calculate_max_trade_size sampleConfig venueA venueB 100 101 = .ok 50 := by
  have h := calculate_max_trade_size_spec sampleConfig venueA venueB 100 101
    { bids := []
      asks := [{ price := 100, quantity := 5 }, { price := 201/2, quantity := 50 },
               { price := 203/2, quantity := 100 }] }
    { asks := []
      bids := [{ price := 101, quantity := 30 }, { price := 1009/10, quantity := 20 },
               { price := 99, quantity := 200 }] }
    { max_trade_amount := 1000 } rfl rfl rfl
  rw [h]
  norm_num [sampleConfig, List.takeWhile]

/-- C9: when the buy venue's name is not a key of config.exchanges, the
cap defaults to the constant 1000, so the size is
min(buy_liquidity, sell_liquidity, 1000). -/
theorem calculate_max_trade_size_default_cap (config : Config)
    (buy_exchange sell_exchange : Exchange) (buy_price sell_price : ℚ)
    (bb sb : OrderBook)
    (h1 : buy_exchange.get_order_book = .ok bb)
    (h2 : sell_exchange.get_order_book = .ok sb)
    (h3 : lookupKey config.exchanges buy_exchange.name = none) :
    calculate_max_trade_size config buy_exchange sell_exchange buy_price sell_price =
      .ok (min
        (min
          (((bb.asks.takeWhile fun a =>
              decide (a.price ≤ buy_price * (1 + config.trading.max_slippage))).map
            OrderBookLevel.quantity).sum)
          (((sb.bids.takeWhile fun b =>
              decide (sell_price * (1 - config.trading.max_slippage) ≤ b.price)).map
            OrderBookLevel.quantity).sum))
        1000) := by
  simp [calculate_max_trade_size, h1, h2, h3,
    walkBuyLiquidity_eq_takeWhile, walkSellLiquidity_eq_takeWhile]

/-- Witness for C9: venue b is not configured, so selling from b buys the
default 1000 cap even with 2000/3000 of book liquidity. -/
theorem calculate_max_trade_size_default_cap_witness :
    calculate_max_trade_size sampleConfig
      { name := ['b'], get_trading_fees := .ok { maker_fee := 0, taker_fee := 1/1000 },
        get_order_book := .ok { bids := [], asks := [{ price := 100, quantity := 2000 }] } }
      { name := ['a'], get_trading_fees := .ok { maker_fee := 0, taker_fee := 1/1000 },
        get_order_book := .ok { asks := [], bids := [{ price := 101, quantity := 3000 }] } }
      100 101 = .ok 1000 := by
  have h := calculate_max_trade_size_default_cap sampleConfig
    { name := ['b'], get_trading_fees := .ok { maker_fee := 0, taker_fee := 1/1000 },
      get_order_book := .ok { bids := [], asks := [{ price := 100, quantity := 2000 }] } }
    { name := ['a'], get_trading_fees := .ok { maker_fee := 0, taker_fee := 1/1000 },
      get_order_book := .ok { asks := [], bids := [{ price := 101, quantity := 3000 }] } }
    100 101
    { bids := [], asks := [{ price := 100, quantity := 2000 }] }
    { asks := [], bids := [{ price := 101, quantity := 3000 }] }
    rfl rfl rfl
  rw [h]
  norm_num [sampleConfig, List.takeWhile]

/-- C1: every call of calculate_arbitrage_opportunity has exactly one of
three outcomes: an error; no opportunity, and then the gross margin was
below threshold, or the fee-adjusted net margin was below threshold, or
the computed size was ≤ 0; or exactly one opportunity whose
profit_percentage is the net margin gross − (buy fee + sell fee)·100,
strictly above threshold, with positive max_trade_size,
profit_amount = max_trade_size · net / 100, and status Active. -/
theorem calculate_arbitrage_outcome_trichotomy (config : Config) (manager : ExchangeManager)
    (pair : TradingPair) (buy_exchange sell_exchange : Str)
    (buy_price sell_price : ℚ) (now : ℤ) :
    (∃ e, calculate_arbitrage_opportunity config manager pair buy_exchange sell_exchange
        buy_price sell_price now = .error e) ∨
    (calculate_arbitrage_opportunity config manager pair buy_exchange sell_exchange
        buy_price sell_price now = .ok none ∧
      ((sell_price - buy_price) / buy_price * 100 ≤ config.trading.min_profit_threshold ∨
       (∃ bx sx bf sf,
          lookupKey manager buy_exchange = some bx ∧
          lookupKey manager sell_exchange = some sx ∧
          bx.get_trading_fees = .ok bf ∧
          sx.get_trading_fees = .ok sf ∧
          (sell_price - buy_price) / buy_price * 100 - (bf.taker_fee + sf.taker_fee) * 100 ≤
            config.trading.min_profit_threshold) ∨
       (∃ bx sx sz,
          lookupKey manager buy_exchange = some bx ∧
          lookupKey manager sell_exchange = some sx ∧
          calculate_max_trade_size config bx sx buy_price sell_price = .ok sz ∧
          sz ≤ 0))) ∨
    (∃ opportunity bx sx bf sf,
      calculate_arbitrage_opportunity config manager pair buy_exchange sell_exchange
        buy_price sell_price now = .ok (some opportunity) ∧
      lookupKey manager buy_exchange = some bx ∧
      lookupKey manager sell_exchange = some sx ∧
      bx.get_trading_fees = .ok bf ∧
      sx.get_trading_fees = .ok sf ∧
      opportunity.profit_percentage =
        (sell_price - buy_price) / buy_price * 100 - (bf.taker_fee + sf.taker_fee) * 100 ∧
      config.trading.min_profit_threshold < opportunity.profit_percentage ∧
      0 < opportunity.max_trade_size ∧
      opportunity.profit_amount =
        opportunity.max_trade_size * opportunity.profit_percentage / 100 ∧
      opportunity.status = OpportunityStatus.Active) := by
  by_cases h1 : (sell_price - buy_price) / buy_price * 100 ≤ config.trading.min_profit_threshold
  · refine Or.inr (Or.inl ⟨?_, Or.inl h1⟩)
    simp only [calculate_arbitrage_opportunity, if_pos h1]
  · cases hb : lookupKey manager buy_exchange with
    | none =>
      refine Or.inl ⟨.exchangeNotFound buy_exchange, ?_⟩
      simp only [calculate_arbitrage_opportunity, if_neg h1, hb]
    | some bx =>
      cases hs : lookupKey manager sell_exchange with
      | none =>
        refine Or.inl ⟨.exchangeNotFound sell_exchange, ?_⟩
        simp only [calculate_arbitrage_opportunity, if_neg h1, hb, hs]
      | some sx =>
        cases hbf : bx.get_trading_fees with
        | error e =>
          refine Or.inl ⟨e, ?_⟩
          simp only [calculate_arbitrage_opportunity, if_neg h1, hb, hs, hbf]
        | ok bf =>
          cases hsf : sx.get_trading_fees with
          | error e =>
            refine Or.inl ⟨e, ?_⟩
            simp only [calculate_arbitrage_opportunity, if_neg h1, hb, hs, hbf, hsf]
          | ok sf =>
            by_cases h2 : (sell_price - buy_price) / buy_price * 100 -
                (bf.taker_fee + sf.taker_fee) * 100 ≤ config.trading.min_profit_threshold
            · refine Or.inr (Or.inl ⟨?_,
                Or.inr (Or.inl ⟨bx, sx, bf, sf, rfl, rfl, hbf, hsf, h2⟩)⟩)
              simp only [calculate_arbitrage_opportunity, if_neg h1, hb, hs, hbf, hsf,
                if_pos h2]
            · cases hm : calculate_max_trade_size config bx sx buy_price sell_price with
              | error e =>
                refine Or.inl ⟨e, ?_⟩
                simp only [calculate_arbitrage_opportunity, if_neg h1, hb, hs, hbf, hsf,
                  if_neg h2, hm]
              | ok sz =>
                by_cases h3 : sz ≤ 0
                · refine Or.inr (Or.inl ⟨?_, Or.inr (Or.inr ⟨bx, sx, sz, rfl, rfl, hm, h3⟩)⟩)
                  simp only [calculate_arbitrage_opportunity, if_neg h1, hb, hs, hbf, hsf,
                    if_neg h2, hm, if_pos h3]
                · refine Or.inr (Or.inr
                    ⟨{ pair := pair
                       buy_exchange := buy_exchange
                       sell_exchange := sell_exchange
                       buy_price := buy_price
                       sell_price := sell_price
                       profit_percentage := (sell_price - buy_price) / buy_price * 100 -
                         (bf.taker_fee + sf.taker_fee) * 100
                       profit_amount := sz * ((sell_price - buy_price) / buy_price * 100 -
                         (bf.taker_fee + sf.taker_fee) * 100) / 100
                       max_trade_size := sz
                       timestamp := now
                       status := .Active },
                     bx, sx, bf, sf, ?_, rfl, rfl, hbf, hsf, rfl,
                     not_le.mp h2, not_le.mp h3, rfl, rfl⟩)
                  simp only [calculate_arbitrage_opportunity, if_neg h1, hb, hs, hbf, hsf,
                    if_neg h2, hm, if_neg h3]

/-! ### Upsert helper lemmas (add_opportunity case equations) -/

theorem add_opportunity_of_none (s : BotState) (o : ArbitrageOpportunity)
    (h : lookupKey s.active_opportunities (oppKey o) = none) :
    add_opportunity s o =
      { s with
          active_opportunities := insertKey s.active_opportunities (oppKey o) o
          saved := s.saved ++ [o] } := by
  simp only [add_opportunity, h]

theorem add_opportunity_of_gt (s : BotState) (o existing : ArbitrageOpportunity)
    (h : lookupKey s.active_opportunities (oppKey o) = some existing)
    (hp : existing.profit_percentage < o.profit_percentage) :
    add_opportunity s o =
      { s with
          active_opportunities := insertKey s.active_opportunities (oppKey o) o
          saved := s.saved ++ [o] } := by
  simp only [add_opportunity, h, if_pos hp]

theorem add_opportunity_of_le (s : BotState) (o existing : ArbitrageOpportunity)
    (h : lookupKey s.active_opportunities (oppKey o) = some existing)
    (hp : ¬existing.profit_percentage < o.profit_percentage) :
    add_opportunity s o = s := by
  simp only [add_opportunity, h, if_neg hp]

theorem add_opportunity_lookup_mono (s : BotState) (o : ArbitrageOpportunity)
    (k : Str) (o1 : ArbitrageOpportunity)
    (h : lookupKey s.active_opportunities k = some o1) :
    ∃ o2, lookupKey (add_opportunity s o).active_opportunities k = some o2 ∧
      o1.profit_percentage ≤ o2.profit_percentage := by
  cases hl : lookupKey s.active_opportunities (oppKey o) with
  | none =>
    rw [add_opportunity_of_none s o hl]
    by_cases hk : k = oppKey o
    · subst hk
      rw [h] at hl
      cases hl
    · refine ⟨o1, ?_, le_refl _⟩
      simpa [lookupKey_insertKey_ne _ _ _ _ hk] using h
  | some existing =>
    by_cases hp : existing.profit_percentage < o.profit_percentage
    · rw [add_opportunity_of_gt s o existing hl hp]
      by_cases hk : k = oppKey o
      · subst hk
        rw [h] at hl
        injection hl with he
        refine ⟨o, ?_, ?_⟩
        · simp [lookupKey_insertKey_self]
        · rw [he]
          exact le_of_lt hp
      · refine ⟨o1, ?_, le_refl _⟩
        simpa [lookupKey_insertKey_ne _ _ _ _ hk] using h
    · rw [add_opportunity_of_le s o existing hl hp]
      exact ⟨o1, h, le_refl _⟩

theorem foldl_add_opportunity_mono (upserts : List ArbitrageOpportunity) :
    ∀ (s : BotState) (k : Str) (o1 : ArbitrageOpportunity),
      lookupKey s.active_opportunities k = some o1 →
      ∃ o2, lookupKey (upserts.foldl add_opportunity s).active_opportunities k = some o2 ∧
        o1.profit_percentage ≤ o2.profit_percentage := by
  induction upserts with
  | nil => exact fun s k o1 h => ⟨o1, h, le_refl _⟩
  | cons o rest ih =>
    intro s k o1 h
    obtain ⟨o2, h2, hle2⟩ := add_opportunity_lookup_mono s o k o1 h
    obtain ⟨o3, h3, hle3⟩ := ih (add_opportunity s o) k o2 h2
    exact ⟨o3, h3, le_trans hle2 hle3⟩

/-- C3: an upsert inserts and persists under a fresh key; under an
existing key it replaces and persists exactly when strictly more
profitable, and otherwise leaves both the book and the persistence log
unchanged; consequently the stored profit_percentage under any key is
non-decreasing across any sequence of upserts. -/
theorem add_opportunity_upsert_spec (s : BotState) (opportunity : ArbitrageOpportunity) :
    (lookupKey s.active_opportunities (oppKey opportunity) = none →
      add_opportunity s opportunity =
        { s with
            active_opportunities :=
              insertKey s.active_opportunities (oppKey opportunity) opportunity
            saved := s.saved ++ [opportunity] }) ∧
    (∀ existing, lookupKey s.active_opportunities (oppKey opportunity) = some existing →
      (existing.profit_percentage < opportunity.profit_percentage →
        add_opportunity s opportunity =
          { s with
              active_opportunities :=
                insertKey s.active_opportunities (oppKey opportunity) opportunity
              saved := s.saved ++ [opportunity] }) ∧
      (opportunity.profit_percentage ≤ existing.profit_percentage →
        add_opportunity s opportunity = s)) ∧
    (∀ (upserts : List ArbitrageOpportunity) (k : Str)
        (o1 o2 : ArbitrageOpportunity),
      lookupKey s.active_opportunities k = some o1 →
      lookupKey (upserts.foldl add_opportunity s).active_opportunities k = some o2 →
      o1.profit_percentage ≤ o2.profit_percentage) := by
  refine ⟨add_opportunity_of_none s opportunity, ?_, ?_⟩
  · intro existing h
    refine ⟨add_opportunity_of_gt s opportunity existing h, ?_⟩
    intro hle
    exact add_opportunity_of_le s opportunity existing h (not_lt.mpr hle)
  · intro upserts k o1 o2 h1 h2
    obtain ⟨o3, h3, hle⟩ := foldl_add_opportunity_mono upserts s k o1 h1
    rw [h2] at h3
    injection h3 with he
    rw [he]
    exact hle

/-- A sample Active opportunity (the S2 numbers) used by witnesses. -/
def sampleOpp : ArbitrageOpportunity :=
  { pair := samplePair
    buy_exchange := ['a']
    sell_exchange := ['b']
    buy_price := 100
    sell_price := 101
    profit_percentage := 4/5
    profit_amount := 2/5
    max_trade_size := 50
    timestamp := 0
    status := .Active }

/-- Witness for C3: upserting into the empty book inserts the entry and
persists it. -/
theorem add_opportunity_upsert_spec_witness :
    add_opportunity initialState sampleOpp =
      { active_opportunities := [(oppKey sampleOpp, sampleOpp)]
        saved := [sampleOpp]
        status_updates := [] } := by
  have h := (add_opportunity_upsert_spec initialState sampleOpp).1 rfl
  rw [h]
  rfl

/-! ### Expiry-pass helper lemmas -/

theorem expireKey_cons (k : Str) (v : ArbitrageOpportunity)
    (tl : List (Str × ArbitrageOpportunity)) (sv up : List ArbitrageOpportunity)
    (key : Str) (h : k ≠ key) :
    expireKey ⟨(k, v) :: tl, sv, up⟩ key =
      { expireKey ⟨tl, sv, up⟩ key with
          active_opportunities :=
            (k, v) :: (expireKey ⟨tl, sv, up⟩ key).active_opportunities } := by
  unfold expireKey
  simp only [removeKey, if_neg h]
  cases hr : removeKey tl key with
  | mk o rest =>
    cases o with
    | none => simp
    | some opp => simp

theorem foldl_expireKey_cons (ks : List Str) :
    ∀ (k : Str) (v : ArbitrageOpportunity) (tl : List (Str × ArbitrageOpportunity))
      (sv up : List ArbitrageOpportunity), k ∉ ks →
      ks.foldl expireKey ⟨(k, v) :: tl, sv, up⟩ =
        { ks.foldl expireKey ⟨tl, sv, up⟩ with
            active_opportunities :=
              (k, v) :: (ks.foldl expireKey ⟨tl, sv, up⟩).active_opportunities } := by
  induction ks with
  | nil =>
    intro k v tl sv up _
    rfl
  | cons k1 krest ih =>
    intro k v tl sv up h
    have h1 : k ≠ k1 := fun he => h (he ▸ List.mem_cons_self k1 krest)
    have h2 : k ∉ krest := fun hm => h (List.mem_cons_of_mem _ hm)
    simp only [List.foldl_cons]
    rw [expireKey_cons k v tl sv up k1 h1]
    rcases hE : expireKey ⟨tl, sv, up⟩ k1 with ⟨a, s2, u2⟩
    dsimp only
    rw [ih k v a s2 u2 h2]

theorem cleanup_foldl_spec (now : ℤ) :
    ∀ (l : List (Str × ArbitrageOpportunity)) (sv up : List ArbitrageOpportunity),
      (l.map Prod.fst).Nodup →
      ((l.filter (fun kv => decide (expiry_threshold < now - kv.2.timestamp))).map
          Prod.fst).foldl expireKey ⟨l, sv, up⟩ =
        ⟨l.filter (fun kv => decide (now - kv.2.timestamp ≤ expiry_threshold)), sv,
          up ++ (l.filter (fun kv => decide (expiry_threshold < now - kv.2.timestamp))).map
            (fun kv => { kv.2 with status := OpportunityStatus.Expired })⟩ := by
  intro l
  induction l with
  | nil =>
    intro sv up _
    simp
  | cons kv rest ih =>
    obtain ⟨k, v⟩ := kv
    intro sv up hnd
    rw [List.map_cons, List.nodup_cons] at hnd
    by_cases he : expiry_threshold < now - v.timestamp
    · rw [List.filter_cons_of_pos (by simpa using he), List.map_cons, List.foldl_cons]
      have h1 : expireKey ⟨(k, v) :: rest, sv, up⟩ k =
          ⟨rest, sv, up ++ [{ v with status := OpportunityStatus.Expired }]⟩ := by
        unfold expireKey
        simp [removeKey]
      rw [h1]
      rw [ih _ _ hnd.2]
      simp only [List.filter_cons, List.map_cons, List.append_assoc, List.singleton_append,
        decide_eq_true_eq]
      rw [if_neg (by omega)]
    · rw [List.filter_cons_of_neg (by simpa using he)]
      have hk : k ∉ ((rest.filter
          (fun kv => decide (expiry_threshold < now - kv.2.timestamp))).map Prod.fst) := by
        intro hm
        apply hnd.1
        rcases List.mem_map.mp hm with ⟨x, hx, hfx⟩
        exact List.mem_map.mpr ⟨x, List.mem_of_mem_filter hx, hfx⟩
      rw [foldl_expireKey_cons _ k v rest sv up hk, ih sv up hnd.2]
      simp only [List.filter_cons, List.map_cons, decide_eq_true_eq]
      rw [if_pos (by omega)]

/-- C5: the expiry pass removes exactly the entries strictly older than
the five-minute threshold (an entry aged exactly the threshold is kept),
each removed entry is appended to the status-update log exactly once with
status Expired, the surviving entries are unchanged, and the
save-opportunity log is untouched. -/
theorem cleanup_expired_spec (now : ℤ) (s : BotState)
    (hnd : (s.active_opportunities.map Prod.fst).Nodup) :
    cleanup_expired_opportunities now s =
      { active_opportunities :=
          s.active_opportunities.filter
            (fun kv => decide (now - kv.2.timestamp ≤ expiry_threshold))
        saved := s.saved
        status_updates :=
          s.status_updates ++
            (s.active_opportunities.filter
              (fun kv => decide (expiry_threshold < now - kv.2.timestamp))).map
              (fun kv => { kv.2 with status := OpportunityStatus.Expired }) } := by
  obtain ⟨l, sv, up⟩ := s
  exact cleanup_foldl_spec now l sv up hnd

/-- Witness for C5 at a two-entry book at time 301: the entry stamped 0
(aged 301 > 300) is removed and persisted as Expired; the entry stamped 1
(aged exactly 300) is kept. -/
theorem cleanup_expired_spec_witness :
    cleanup_expired_opportunities 301
      { active_opportunities :=
          [(oppKey sampleOpp, sampleOpp),
           (['k'], { sampleOpp with timestamp := 1 })]
        saved := [sampleOpp]
        status_updates := [] } =
      { active_opportunities := [(['k'], { sampleOpp with timestamp := 1 })]
        saved := [sampleOpp]
        status_updates := [{ sampleOpp with status := OpportunityStatus.Expired }] } := by
  have h := cleanup_expired_spec 301
    { active_opportunities :=
        [(oppKey sampleOpp, sampleOpp),
         (['k'], { sampleOpp with timestamp := 1 })]
      saved := [sampleOpp]
      status_updates := [] }
    (by decide)
  rw [h]
  rfl

/-! ### Invariant helper lemmas -/

theorem calc_ok_some_active (config : Config) (manager : ExchangeManager)
    (pair : TradingPair) (buy_exchange sell_exchange : Str)
    (buy_price sell_price : ℚ) (now : ℤ) (opp : ArbitrageOpportunity)
    (h : calculate_arbitrage_opportunity config manager pair buy_exchange sell_exchange
      buy_price sell_price now = .ok (some opp)) :
    opp.status = OpportunityStatus.Active := by
  simp only [calculate_arbitrage_opportunity] at h
  repeat' split at h
  all_goals simp_all
  rw [← h]

theorem execute_opportunity_state (dry_run : Bool) (s : BotState)
    (opportunity : ArbitrageOpportunity) :
    (execute_opportunity dry_run s opportunity).state = s := by
  cases dry_run <;> rfl

theorem expireKey_active_subset (st : BotState) (key : Str) (kv : Str × ArbitrageOpportunity)
    (h : kv ∈ (expireKey st key).active_opportunities) :
    kv ∈ st.active_opportunities := by
  unfold expireKey at h
  split at h
  next opp rest heq =>
    have h2 : kv ∈ (removeKey st.active_opportunities key).2 := by
      rw [heq]
      exact h
    exact removeKey_snd_subset _ _ _ h2
  next => exact h

theorem foldl_expireKey_active_subset (ks : List Str) :
    ∀ (st : BotState) (kv : Str × ArbitrageOpportunity),
      kv ∈ (ks.foldl expireKey st).active_opportunities → kv ∈ st.active_opportunities := by
  induction ks with
  | nil => exact fun st kv h => h
  | cons k1 krest ih =>
    intro st kv h
    exact expireKey_active_subset st k1 kv (ih (expireKey st k1) kv h)

theorem add_opportunity_active_mem (s : BotState) (o : ArbitrageOpportunity)
    (kv : Str × ArbitrageOpportunity)
    (h : kv ∈ (add_opportunity s o).active_opportunities) :
    kv = (oppKey o, o) ∨ kv ∈ s.active_opportunities := by
  simp only [add_opportunity] at h
  split at h
  · split at h
    · exact mem_insertKey _ _ _ _ h
    · exact Or.inr h
  · exact mem_insertKey _ _ _ _ h

/-- C10: every entry stored in the opportunity book of any reachable bot
state has status Active: insertion only stores calculator output (always
Active), expiry removes entries before marking them Expired, and
execution does not modify the book. -/
theorem book_entries_always_active (s : BotState) (h : Reachable s) : AllActive s := by
  induction h with
  | init =>
    intro kv hkv
    cases hkv
  | scan config manager pair be se bp sp now opp s2 _ hcalc ih =>
    intro kv hkv
    rcases add_opportunity_active_mem s2 opp kv hkv with h1 | h1
    · rw [h1]
      exact calc_ok_some_active config manager pair be se bp sp now opp hcalc
    · exact ih kv h1
  | cleanup now s2 _ ih =>
    intro kv hkv
    simp only [cleanup_expired_opportunities] at hkv
    exact ih kv (foldl_expireKey_active_subset _ s2 kv hkv)
  | execute dr o s2 _ ih =>
    intro kv hkv
    rw [execute_opportunity_state] at hkv
    exact ih kv hkv

/-- Witness for C10 at the initial state. -/
theorem book_entries_always_active_witness : AllActive initialState :=
  book_entries_always_active initialState Reachable.init

/-- C8: under dry_run, executing an opportunity returns success, invokes
no adapter execution method, and leaves the bot state (book, logs, every
stored status) unchanged. -/
theorem execute_opportunity_dry_run (s : BotState) (opportunity : ArbitrageOpportunity) :
    execute_opportunity true s opportunity =
      { state := s, adapter_calls := [], outcome := .ok () } := rfl

/-- Counterexample to C4 as stated: with two equally profitable entries
whose book-iteration order is [timestamp 5, timestamp 3], the selection
keeps that order (Rust sort_by is stable and compares only
profit_percentage), so the claimed earlier-timestamp-first tiebreak fails:
the first selected entry has the later timestamp. -/
theorem execute_selection_tiebreak_cex :
    execute_opportunities_selection sampleConfig
      { active_opportunities :=
          [(['x'], { sampleOpp with timestamp := 5 }),
           (['y'], { sampleOpp with timestamp := 3 })]
        saved := []
        status_updates := [] } =
      [{ sampleOpp with timestamp := 5 }, { sampleOpp with timestamp := 3 }] ∧
    ({ sampleOpp with timestamp := 5 } : ArbitrageOpportunity).profit_percentage =
      ({ sampleOpp with timestamp := 3 } : ArbitrageOpportunity).profit_percentage ∧
    (3 : ℤ) < 5 := by
  refine ⟨?_, rfl, by decide⟩
  norm_num [execute_opportunities_selection, sampleConfig, profitDesc,
    List.insertionSort, List.orderedInsert]

/-- C4 amended: the executor gate selects the stable descending-profit
sort of all book entries (all of which are Active in reachable states),
truncated to max_concurrent_trades; the sort is a permutation of the book
values and the selection is sorted by profit_percentage descending, but no
timestamp tiebreak is applied — equal-profit entries stay in book
iteration order. -/
theorem execute_selection_sorted (config : Config) (s : BotState) :
    execute_opportunities_selection config s =
      ((s.active_opportunities.map Prod.snd).insertionSort profitDesc).take
        config.trading.max_concurrent_trades ∧
    List.Perm ((s.active_opportunities.map Prod.snd).insertionSort profitDesc)
      (s.active_opportunities.map Prod.snd) ∧
    (execute_opportunities_selection config s).length =
      min config.trading.max_concurrent_trades s.active_opportunities.length ∧
    ∀ (i j : ℕ) (hi : i < (execute_opportunities_selection config s).length)
      (hj : j < (execute_opportunities_selection config s).length), i < j →
      ((execute_opportunities_selection config s).get ⟨j, hj⟩).profit_percentage ≤
        ((execute_opportunities_selection config s).get ⟨i, hi⟩).profit_percentage := by
  haveI htot : IsTotal ArbitrageOpportunity profitDesc :=
    ⟨fun a b => le_total b.profit_percentage a.profit_percentage⟩
  haveI htrans : IsTrans ArbitrageOpportunity profitDesc :=
    ⟨fun _ _ _ h1 h2 => le_trans h2 h1⟩
  refine ⟨rfl, List.perm_insertionSort _ _, ?_, ?_⟩
  · simp [execute_opportunities_selection, List.length_take, List.length_insertionSort]
  · intro i j hi hj hij
    have hs : ((s.active_opportunities.map Prod.snd).insertionSort profitDesc).Pairwise
        profitDesc := List.sorted_insertionSort _ _
    have hp : (execute_opportunities_selection config s).Pairwise profitDesc :=
      hs.sublist (List.take_sublist _ _)
    exact List.pairwise_iff_get.mp hp ⟨i, hi⟩ ⟨j, hj⟩ hij

/-- Witness for C4 amended: on a one-entry book with
max_concurrent_trades = 2 the selection has length min 2 1 = 1. -/
theorem execute_selection_sorted_witness :
    (execute_opportunities_selection sampleConfig
      { active_opportunities := [(oppKey sampleOpp, sampleOpp)]
        saved := []
        status_updates := [] }).length = 1 := by
  have h := (execute_selection_sorted sampleConfig
    { active_opportunities := [(oppKey sampleOpp, sampleOpp)]
      saved := []
      status_updates := [] }).2.2.1
  simpa using h

/-! ### Character and split lemmas for pair parsing -/

theorem char_toNat_ofNat {n : ℕ} (h : n.isValidChar) : (Char.ofNat n).toNat = n := by
  simp [Char.ofNat, dif_pos h, Char.ofNatAux, Char.toNat, UInt32.toNat]

theorem toUpper_toNat_of_lower {c : Char} (h : 97 ≤ c.toNat ∧ c.toNat ≤ 122) :
    (Char.toUpper c).toNat = c.toNat - 32 := by
  have hv : (c.toNat - 32).isValidChar := by
    left
    omega
  simp only [Char.toUpper, if_pos h]
  exact char_toNat_ofNat hv

theorem toUpper_eq_of_not_lower {c : Char} (h : ¬(97 ≤ c.toNat ∧ c.toNat ≤ 122)) :
    Char.toUpper c = c := by
  simp only [Char.toUpper, if_neg h]

theorem toUpper_slash_iff (c : Char) : Char.toUpper c = '/' ↔ c = '/' := by
  have h47 : ('/' : Char).toNat = 47 := rfl
  by_cases h : 97 ≤ c.toNat ∧ c.toNat ≤ 122
  · have h1 := toUpper_toNat_of_lower h
    constructor
    · intro he
      exfalso
      rw [he, h47] at h1
      omega
    · intro he
      exfalso
      rw [he, h47] at h
      omega
  · rw [toUpper_eq_of_not_lower h]

theorem toUpper_idem (c : Char) : Char.toUpper (Char.toUpper c) = Char.toUpper c := by
  by_cases h : 97 ≤ c.toNat ∧ c.toNat ≤ 122
  · have h1 := toUpper_toNat_of_lower h
    apply toUpper_eq_of_not_lower
    omega
  · rw [toUpper_eq_of_not_lower h, toUpper_eq_of_not_lower h]

theorem upStr_idem (s : Str) : upStr (upStr s) = upStr s := by
  simp only [upStr, List.map_map]
  exact List.map_congr_left fun c _ => toUpper_idem c

theorem splitChar_ne_nil (sep : Char) (s : List Char) : splitChar sep s ≠ [] := by
  cases s with
  | nil => simp [splitChar]
  | cons c rest =>
    by_cases h : c = sep
    · simp [splitChar, h]
    · simp only [splitChar, if_neg h]
      cases splitChar sep rest with
      | nil => simp
      | cons p ps => simp

theorem splitChar_map_toUpper (s : List Char) :
    splitChar '/' (s.map Char.toUpper) = (splitChar '/' s).map (List.map Char.toUpper) := by
  induction s with
  | nil => simp [splitChar]
  | cons c rest ih =>
    by_cases h : c = '/'
    · subst h
      rw [List.map_cons]
      have hfix : Char.toUpper '/' = '/' := rfl
      rw [hfix]
      simp [splitChar, ih]
    · have hup : Char.toUpper c ≠ '/' := fun he => h ((toUpper_slash_iff c).mp he)
      rw [List.map_cons]
      simp only [splitChar, if_neg h, if_neg hup, ih]
      rcases hsp : splitChar '/' rest with _ | ⟨p, ps⟩
      · exact absurd hsp (splitChar_ne_nil _ _)
      · simp

/-- Counterexample to C6 as stated: the source checks only that splitting
on every '/' yields exactly two fragments, not that they are non-empty,
so "BTC/" parses successfully with an empty quote; and "A/B/C", which has
two parts when split only on the first '/', is rejected. -/
theorem parse_trading_pair_cex :
    parse_trading_pair ['B', 'T', 'C', '/'] =
      some { base := ['B', 'T', 'C'], quote := [], symbol := ['B', 'T', 'C', '/'] } ∧
    parse_trading_pair ['A', '/', 'B', '/', 'C'] = none := by
  constructor
  · rfl
  · rfl

/-- C6 amended: parsing splits on every '/' and succeeds exactly when
that yields two fragments (possibly empty), uppercasing both and deriving
the canonical BASE/QUOTE symbol; input case does not affect the result. -/
theorem parse_trading_pair_spec (s : Str) :
    (∀ b q, splitChar '/' s = [b, q] →
      parse_trading_pair s =
        some { base := upStr b, quote := upStr q, symbol := upStr b ++ ('/' :: upStr q) }) ∧
    ((∀ b q, splitChar '/' s ≠ [b, q]) → parse_trading_pair s = none) ∧
    parse_trading_pair (upStr s) = parse_trading_pair s := by
  refine ⟨?_, ?_, ?_⟩
  · intro b q h
    simp [parse_trading_pair, h, TradingPair.new]
  · intro h
    unfold parse_trading_pair
    rcases hs : splitChar '/' s with _ | ⟨b, _ | ⟨q, _ | ⟨r, l⟩⟩⟩
    · rfl
    · rfl
    · exact absurd hs (h b q)
    · rfl
  · unfold parse_trading_pair
    rw [show upStr s = s.map Char.toUpper from rfl, splitChar_map_toUpper]
    rcases hs : splitChar '/' s with _ | ⟨b, _ | ⟨q, _ | ⟨r, l⟩⟩⟩
    · rfl
    · rfl
    · simp only [List.map_cons, List.map_nil, TradingPair.new]
      rw [show ∀ u : List Char, List.map Char.toUpper u = upStr u from fun _ => rfl,
        show ∀ u : List Char, List.map Char.toUpper u = upStr u from fun _ => rfl]
      rw [upStr_idem, upStr_idem]
    · rfl

/-- Witness for C6 amended: "btc/usd" parses to the canonical BTC/USD
pair, and upper-casing the input first gives the same result. -/
theorem parse_trading_pair_spec_witness :
    splitChar '/' ['b', 't', 'c', '/', 'u', 's', 'd'] = [['b', 't', 'c'], ['u', 's', 'd']] ∧
    parse_trading_pair ['b', 't', 'c', '/', 'u', 's', 'd'] =
      some { base := upStr ['b', 't', 'c'], quote := upStr ['u', 's', 'd'],
             symbol := upStr ['b', 't', 'c'] ++ ('/' :: upStr ['u', 's', 'd']) } ∧
    parse_trading_pair (upStr ['b', 't', 'c', '/', 'u', 's', 'd']) =
      parse_trading_pair ['b', 't', 'c', '/', 'u', 's', 'd'] := by
  refine ⟨rfl, ?_, ?_⟩
  · exact (parse_trading_pair_spec ['b', 't', 'c', '/', 'u', 's', 'd']).1
      ['b', 't', 'c'] ['u', 's', 'd'] rfl
  · exact (parse_trading_pair_spec ['b', 't', 'c', '/', 'u', 's', 'd']).2.2

/-! ### Best-price fold lemmas -/

theorem find_best_buy_go (l : List Price) :
    ∀ q : Price,
      ∃ r, l.foldl
          (fun acc p => match acc with
            | none => some p
            | some q2 => if p.ask < q2.ask then some p else some q2) (some q) = some r ∧
        (∀ x ∈ l, r.ask ≤ x.ask) ∧ r.ask ≤ q.ask ∧
        (r = q ∨ ∃ l1 l2, l = l1 ++ r :: l2 ∧ r.ask < q.ask ∧ ∀ x ∈ l1, r.ask < x.ask) := by
  induction l with
  | nil => exact fun q => ⟨q, rfl, by simp, le_refl _, Or.inl rfl⟩
  | cons p rest ih =>
    intro q
    by_cases h : p.ask < q.ask
    · obtain ⟨r, hr, hall, hle, hdec⟩ := ih p
      refine ⟨r, ?_, ?_, le_trans hle (le_of_lt h), ?_⟩
      · simpa only [List.foldl_cons, if_pos h] using hr
      · intro x hx
        rcases List.mem_cons.mp hx with hx | hx
        · exact hx ▸ hle
        · exact hall x hx
      · rcases hdec with hq | ⟨l1, l2, hsplit, hlt, hstrict⟩
        · subst hq
          exact Or.inr ⟨[], rest, rfl, h, by simp⟩
        · refine Or.inr ⟨p :: l1, l2, by simp [hsplit], lt_trans hlt h, ?_⟩
          intro x hx
          rcases List.mem_cons.mp hx with hx | hx
          · exact hx ▸ hlt
          · exact hstrict x hx
    · obtain ⟨r, hr, hall, hle, hdec⟩ := ih q
      refine ⟨r, ?_, ?_, hle, ?_⟩
      · simpa only [List.foldl_cons, if_neg h] using hr
      · intro x hx
        rcases List.mem_cons.mp hx with hx | hx
        · exact hx ▸ le_trans hle (not_lt.mp h)
        · exact hall x hx
      · rcases hdec with hq | ⟨l1, l2, hsplit, hlt, hstrict⟩
        · exact Or.inl hq
        · refine Or.inr ⟨p :: l1, l2, by simp [hsplit], hlt, ?_⟩
          intro x hx
          rcases List.mem_cons.mp hx with hx | hx
          · exact hx ▸ lt_of_lt_of_le hlt (not_lt.mp h)
          · exact hstrict x hx

theorem find_best_sell_go (l : List Price) :
    ∀ q : Price,
      ∃ r, l.foldl
          (fun acc p => match acc with
            | none => some p
            | some q2 => if p.bid < q2.bid then some q2 else some p) (some q) = some r ∧
        (∀ x ∈ l, x.bid ≤ r.bid) ∧ q.bid ≤ r.bid ∧
        ((r = q ∧ ∀ x ∈ l, x.bid < r.bid) ∨
          ∃ l1 l2, l = l1 ++ r :: l2 ∧ ∀ x ∈ l2, x.bid < r.bid) := by
  induction l with
  | nil => exact fun q => ⟨q, rfl, by simp, le_refl _, Or.inl ⟨rfl, by simp⟩⟩
  | cons p rest ih =>
    intro q
    by_cases h : p.bid < q.bid
    · obtain ⟨r, hr, hall, hle, hdec⟩ := ih q
      refine ⟨r, ?_, ?_, hle, ?_⟩
      · simpa only [List.foldl_cons, if_pos h] using hr
      · intro x hx
        rcases List.mem_cons.mp hx with hx | hx
        · exact hx ▸ le_of_lt (lt_of_lt_of_le h hle)
        · exact hall x hx
      · rcases hdec with ⟨hq, hstrict⟩ | ⟨l1, l2, hsplit, hstrict⟩
        · refine Or.inl ⟨hq, ?_⟩
          intro x hx
          rcases List.mem_cons.mp hx with hx | hx
          · rw [hx, hq]
            exact h
          · exact hstrict x hx
        · exact Or.inr ⟨p :: l1, l2, by simp [hsplit], hstrict⟩
    · obtain ⟨r, hr, hall, hle, hdec⟩ := ih p
      refine ⟨r, ?_, ?_, le_trans (not_lt.mp h) hle, ?_⟩
      · simpa only [List.foldl_cons, if_neg h] using hr
      · intro x hx
        rcases List.mem_cons.mp hx with hx | hx
        · exact hx ▸ hle
        · exact hall x hx
      · rcases hdec with ⟨hq, hstrict⟩ | ⟨l1, l2, hsplit, hstrict⟩
        · subst hq
          exact Or.inr ⟨[], rest, rfl, hstrict⟩
        · exact Or.inr ⟨p :: l1, l2, by simp [hsplit], hstrict⟩

/-- Counterexample to C7 as stated: two quotes tie on the minimal ask;
Rust min_by returns the first in iteration order, here the venue named
"b", even though the tied venue "a" has the lexicographically smaller
name, so the claimed deterministic name()-ascending tiebreak fails. -/
theorem find_best_buy_name_tiebreak_cex :
    find_best_buy_price
      [{ exchange := ['b'], pair := samplePair, bid := 99, ask := 100, timestamp := 0 },
       { exchange := ['a'], pair := samplePair, bid := 99, ask := 100, timestamp := 0 }] =
      some { exchange := ['b'], pair := samplePair, bid := 99, ask := 100, timestamp := 0 } ∧
    List.Lex (· < ·) (['a'] : Str) (['b'] : Str) := by
  exact ⟨rfl, List.Lex.rel (by decide)⟩

/-- C7 amended: for a non-empty quote list the buy helper returns a quote
minimising ask and the sell helper a quote maximising bid; on ties the
buy helper returns the first minimising quote in iteration order (every
earlier quote has strictly larger ask) and the sell helper the last
maximising quote (every later quote has strictly smaller bid); no
name()-based tiebreak is applied. -/
theorem find_best_price_spec (prices : List Price) (h : prices ≠ []) :
    (∃ p, find_best_buy_price prices = some p ∧ p ∈ prices ∧
      (∀ x ∈ prices, p.ask ≤ x.ask) ∧
      ∃ l1 l2, prices = l1 ++ p :: l2 ∧ ∀ x ∈ l1, p.ask < x.ask) ∧
    (∃ p, find_best_sell_price prices = some p ∧ p ∈ prices ∧
      (∀ x ∈ prices, x.bid ≤ p.bid) ∧
      ∃ l1 l2, prices = l1 ++ p :: l2 ∧ ∀ x ∈ l2, x.bid < p.bid) := by
  rcases prices with _ | ⟨p0, rest⟩
  · exact absurd rfl h
  constructor
  · obtain ⟨r, hr, hall, hle, hdec⟩ := find_best_buy_go rest p0
    refine ⟨r, ?_, ?_, ?_, ?_⟩
    · simpa only [find_best_buy_price, List.foldl_cons] using hr
    · rcases hdec with hq | ⟨l1, l2, hsplit, _, _⟩
      · exact hq ▸ List.mem_cons_self _ _
      · rw [hsplit]
        exact List.mem_cons_of_mem _ (by simp)
    · intro x hx
      rcases List.mem_cons.mp hx with hx | hx
      · exact hx ▸ hle
      · exact hall x hx
    · rcases hdec with hq | ⟨l1, l2, hsplit, hlt, hstrict⟩
      · exact ⟨[], rest, by simp [hq], by simp⟩
      · refine ⟨p0 :: l1, l2, by simp [hsplit], ?_⟩
        intro x hx
        rcases List.mem_cons.mp hx with hx | hx
        · exact hx ▸ hlt
        · exact hstrict x hx
  · obtain ⟨r, hr, hall, hle, hdec⟩ := find_best_sell_go rest p0
    refine ⟨r, ?_, ?_, ?_, ?_⟩
    · simpa only [find_best_sell_price, List.foldl_cons] using hr
    · rcases hdec with ⟨hq, _⟩ | ⟨l1, l2, hsplit, _⟩
      · exact hq ▸ List.mem_cons_self _ _
      · rw [hsplit]
        exact List.mem_cons_of_mem _ (by simp)
    · intro x hx
      rcases List.mem_cons.mp hx with hx | hx
      · exact hx ▸ hle
      · exact hall x hx
    · rcases hdec with ⟨hq, hstrict⟩ | ⟨l1, l2, hsplit, hstrict⟩
      · exact ⟨[], rest, by simp [hq], hstrict⟩
      · exact ⟨p0 :: l1, l2, by simp [hsplit], hstrict⟩

/-- Witness for C7 amended: on a one-quote list both helpers return that
quote. -/
theorem find_best_price_spec_witness :
    find_best_buy_price
      [{ exchange := ['a'], pair := samplePair, bid := 99, ask := 100, timestamp := 0 }] =
      some { exchange := ['a'], pair := samplePair, bid := 99, ask := 100, timestamp := 0 } ∧
    find_best_sell_price
      [{ exchange := ['a'], pair := samplePair, bid := 99, ask := 100, timestamp := 0 }] =
      some { exchange := ['a'], pair := samplePair, bid := 99, ask := 100, timestamp := 0 } := by
  obtain ⟨⟨p, hp, hmem, -, -⟩, ⟨p2, hp2, hmem2, -, -⟩⟩ := find_best_price_spec
    [{ exchange := ['a'], pair := samplePair, bid := 99, ask := 100, timestamp := 0 }]
    (by simp)
  simp only [List.mem_singleton] at hmem hmem2
  exact ⟨hmem ▸ hp, hmem2 ▸ hp2⟩

end ArbBot
